import Mathlib

set_option maxRecDepth 8000

/-!
A verification development for the H Holdings newsletter aggregation
pipeline (`newsletter.py`).  The pure logic (summary sanitisation, the
relevance filter, the RSS/Atom format fallback, the mortgage-rate fallback
chain and the digest assembly) is embedded as executable Lean definitions.
The effectful collaborators (HTTP transport plus XML parsing, the JSON rate
endpoint, and the wall clock) enter as explicit parameters: an
`Except`-valued outcome per request, and the formatted current date as a
string.  Strings are processed on their underlying character lists; case
mapping and digit classes are modelled for ASCII, which covers every
configured keyword and the patterns the source matches.
-/

namespace HHoldings

/- ────────────────────────────────────────────
   Data model
   ──────────────────────────────────────────── -/

/-- One normalized article: the dict `{title, link, desc, date}` built by
`fetch_rss`, plus the `source` key that `gather_news` adds afterwards
(`item["source"] = feed["name"]`).  The not-yet-added key is modelled by the
empty string. -/
structure Article where
  title : String
  link : String
  desc : String
  date : String
  source : String
deriving DecidableEq

/-- A parsed `<item>` element as seen through `item.find(tag)`: each field is
the text of the child element, `none` when the element is missing or its
text is `None`. -/
structure ItemNode where
  title : Option String
  link : Option String
  description : Option String
  pubDate : Option String
deriving DecidableEq

/-- A parsed Atom `<entry>` element: text children looked up through
`entry.find(f"atom:{tag}", ns)`, plus the `href` attribute of the first
`atom:link` child (`none` when the link element is missing; a missing
attribute is folded into `none` since the source defaults it to `""`). -/
structure EntryNode where
  title : Option String
  summary : Option String
  content : Option String
  updated : Option String
  linkHref : Option String
deriving DecidableEq

/-- The document tree returned by `ET.fromstring`: `items` models
`root.findall(".//item")` and `entries` models
`root.findall(".//atom:entry", ns)`, in document order. -/
structure FeedDoc where
  items : List ItemNode
  entries : List EntryNode
deriving DecidableEq

/-- Outcome of one network request plus parse, keyed by URL.  `.error ()`
models any exception raised by `urllib.request.urlopen`, `resp.read()` or
`ET.fromstring` (timeout, connection error, non-2xx HTTP status, malformed
XML); `.ok doc` is the successfully parsed document. -/
abbrev FeedOracle : Type := String → Except Unit FeedDoc

/-- One source feed from the `RSS_FEEDS` configuration table. -/
structure FeedSource where
  name : String
  url : String
deriving DecidableEq

def RSS_FEEDS_raleigh_news : List FeedSource :=
  [ { name := "WRAL – Local News",
      url := "https://www.wral.com/rss/1148/" },
    { name := "News & Observer – Real Estate",
      url := "https://www.newsobserver.com/news/business/real-estate-news/?outputType=atom" },
    { name := "Triangle Business Journal",
      url := "https://www.bizjournals.com/triangle/rssfeed/breaking_news/" } ]

def RSS_FEEDS_construction_news : List FeedSource :=
  [ { name := "Construction Dive",
      url := "https://www.constructiondive.com/feeds/news/" },
    { name := "Builder Online",
      url := "https://www.builderonline.com/rss" },
    { name := "NAHB Now",
      url := "https://nahbnow.com/feed/" } ]

def RSS_FEEDS_materials_news : List FeedSource :=
  [ { name := "AGC – Construction Industry News",
      url := "https://www.agc.org/news/rss" },
    { name := "Probuilder – Industry",
      url := "https://www.probuilder.com/rss.xml" } ]

def RALEIGH_KEYWORDS : List String :=
  ["raleigh", "durham", "chapel hill", "wake county", "triangle",
   "cary", "apex", "morrisville", "holly springs", "fuquay",
   "downtown", "north carolina", "nc ", " nc,"]

def MORTGAGE_KEYWORDS : List String :=
  ["mortgage", "30-year", "interest rate", "fed", "federal reserve",
   "housing market", "home price", "refinance"]

def MATERIAL_KEYWORDS : List String :=
  ["lumber", "wood", "steel", "concrete", "copper", "material",
   "supply chain", "tariff", "price increase", "construction cost",
   "framing", "drywall", "roofing", "insulation"]

/- ────────────────────────────────────────────
   String helpers (Python str methods on char lists)
   ──────────────────────────────────────────── -/

/-- Whitespace as stripped by Python `str.strip()` (ASCII part). -/
def pySpace (c : Char) : Bool :=
  c = ' ' || c = '\t' || c = '\n' || c = '\r' || c = '\x0b' || c = '\x0c'

/-- Python `str.strip()`: remove leading and trailing whitespace. -/
def pyStrip (l : List Char) : List Char :=
  ((l.dropWhile pySpace).reverse.dropWhile pySpace).reverse

def pyStripStr (s : String) : String := ⟨pyStrip s.data⟩

/-- Python `str.lower()` restricted to ASCII letters. -/
def lowerChar (c : Char) : Char :=
  if 65 ≤ c.toNat ∧ c.toNat ≤ 90 then Char.ofNat (c.toNat + 32) else c

def lowerStr (s : String) : String := ⟨s.data.map lowerChar⟩

/-- Models the `html.unescape` collaborator (Python stdlib), restricted to
the predefined XML entities; only its type matters to the claims proved
here, since it runs before tag stripping and truncation. -/
def unescapeChars : List Char → List Char
  | '&' :: 'l' :: 't' :: ';' :: rest => '<' :: unescapeChars rest
  | '&' :: 'g' :: 't' :: ';' :: rest => '>' :: unescapeChars rest
  | '&' :: 'a' :: 'm' :: 'p' :: ';' :: rest => '&' :: unescapeChars rest
  | '&' :: 'q' :: 'u' :: 'o' :: 't' :: ';' :: rest => '"' :: unescapeChars rest
  | '&' :: '#' :: '3' :: '9' :: ';' :: rest => Char.ofNat 39 :: unescapeChars rest
  | c :: rest => c :: unescapeChars rest
  | [] => []

def pyUnescape (s : String) : String := ⟨unescapeChars s.data⟩

/-- Python substring test `pat in s`. -/
def containsSub (s pat : String) : Bool := decide (pat.data <:+: s.data)

/- ────────────────────────────────────────────
   Tag stripping: re.sub(r"<[^>]+>", "", s)
   ──────────────────────────────────────────── -/

/-- Split a character list at its first `'>'`: `some (before, after)` when a
`'>'` exists, `none` otherwise.  Because `[^>]` cannot match `'>'`, the
greedy `[^>]+` in the source regex always runs up to exactly the first
`'>'`, which makes this the whole matching story for `<[^>]+>`. -/
def splitAtGt : List Char → Option (List Char × List Char)
  | [] => none
  | c :: cs =>
    if c = '>' then some ([], cs)
    else (splitAtGt cs).map (fun p => (c :: p.1, p.2))

/-- Left-to-right scanner implementing `re.sub(r"<[^>]+>", "", s)`.
In mode `none` it copies characters until a `'<'`; it then switches to mode
`some buf` accumulating the (reversed) characters after that `'<'`.  On a
`'>'` with a non-empty buffer the match `<[^>]+>` is dropped; on a `'>'`
with an empty buffer there is no match (the `+` needs at least one inner
character), so the literal `<>` is emitted; at end-of-input an unclosed
`'<'` and its buffer are emitted unchanged, exactly as `re.sub` leaves an
unmatched tail alone. -/
def subAux : Option (List Char) → List Char → List Char
  | none, [] => []
  | none, c :: cs => if c = '<' then subAux (some []) cs else c :: subAux none cs
  | some buf, [] => '<' :: buf.reverse
  | some buf, c :: cs =>
    if c = '>' then
      if buf.isEmpty then '<' :: '>' :: subAux none cs else subAux none cs
    else subAux (some (c :: buf)) cs

/-- `re.sub(r"<[^>]+>", "", ·)` on a character list. -/
def stripTags (l : List Char) : List Char := subAux none l

/-- The summary pipeline applied to both description paths in `fetch_rss`:
`re.sub(r"<[^>]+>", "", desc)[:220].strip()`. -/
def mkDesc (s : String) : String := ⟨pyStrip ((stripTags s.data).take 220)⟩

/-- A complete markup tag starts at the head of the list: a `'<'`, then one
or more non-`'>'` characters, then `'>'` (the pattern `<[^>]+>`). -/
def tagAt : List Char → Bool
  | [] => false
  | c :: cs =>
    decide (c = '<') && ((splitAtGt cs).map (fun p => !p.1.isEmpty)).getD false

/-- Some suffix of the list starts a complete markup tag, i.e. the list has
a substring matching `<[^>]+>`. -/
def hasTag : List Char → Bool
  | [] => false
  | c :: cs => tagAt (c :: cs) || hasTag cs

/- ────────────────────────────────────────────
   Feed Fetcher / Format Normalizer (fetch_rss)
   ──────────────────────────────────────────── -/

/-- The inner `get` helper of `fetch_rss`:
`unescape(el.text.strip()) if el is not None and el.text else ""`.  A
missing element or `None`/empty text yields `""`. -/
def getText (o : Option String) : String :=
  match o with
  | none => ""
  | some t => if t = "" then "" else pyUnescape (pyStripStr t)

/-- Normalization of one RSS `<item>`. -/
def itemToArticle (it : ItemNode) : Article :=
  { title := getText it.title
    link := getText it.link
    desc := mkDesc (getText it.description)
    date := if getText it.pubDate = "" then "" else ⟨(getText it.pubDate).data.take 16⟩
    source := "" }

/-- Normalization of one Atom `<entry>`: `getat("summary") or getat("content")`
for the description, the `href` attribute for the link, `updated[:10]` for
the date. -/
def entryToArticle (en : EntryNode) : Article :=
  let summary := getText en.summary
  let desc0 := if summary = "" then getText en.content else summary
  { title := getText en.title
    link := en.linkHref.getD ""
    desc := mkDesc desc0
    date := if getText en.updated = "" then "" else ⟨(getText en.updated).data.take 10⟩
    source := "" }

/-- The parsing half of `fetch_rss`, applied to a successfully fetched and
parsed document: RSS items first (`root.findall(".//item")[:8]`), and when
that loop appended nothing (`if not items:`), Atom entries
(`root.findall(".//atom:entry", ns)[:8]`). -/
def parseFeed (doc : FeedDoc) : List Article :=
  let items := (doc.items.take 8).map itemToArticle
  if items.isEmpty then (doc.entries.take 8).map entryToArticle else items

/-- `fetch_rss`: the whole body sits inside `try/except Exception`, so a
failed request or parse returns `[]` and no exception escapes; a parsed
document is normalized by `parseFeed`. -/
def fetch_rss (outcome : Except Unit FeedDoc) : List Article :=
  match outcome with
  | Except.ok doc => parseFeed doc
  | Except.error _ => []

/- ────────────────────────────────────────────
   Relevance Filter (filter_articles)
   ──────────────────────────────────────────── -/

/-- The match predicate inlined in the `filter_articles` loop:
`any(k in (a["title"] + " " + a["desc"]).lower() for k in kw_lower)` with
`kw_lower = [k.lower() for k in keywords]`. -/
def matchesKeywords (keywords : List String) (a : Article) : Bool :=
  (keywords.map lowerStr).any (fun k => containsSub (lowerStr (a.title ++ " " ++ a.desc)) k)

/-- `filter_articles`: one forward pass appending each article to `matched`
or `rest`, then `(matched + rest)[:max_items]`. -/
def filter_articles (articles : List Article) (keywords : List String)
    (max_items : Nat := 4) : List Article :=
  let mr := articles.foldl
    (fun (mr : List Article × List Article) a =>
      if matchesKeywords keywords a then (mr.1 ++ [a], mr.2) else (mr.1, mr.2 ++ [a]))
    ([], [])
  (mr.1 ++ mr.2).take max_items

/- ────────────────────────────────────────────
   Rate Resolver (fetch_mortgage_rate)
   ──────────────────────────────────────────── -/

/-- One element of the `pmms30` JSON array; each field is `none` when the
key is absent (`latest.get(...)` then supplies the default). -/
structure PmmsEntry where
  pmms : Option String
  weeklyendingdate : Option String
deriving DecidableEq

/-- The JSON document of the primary tier; `pmms30 = none` models a
parseable document that lacks the `"pmms30"` key, so that
`data.get("pmms30", [{}])` falls back to the one-element default. -/
structure PrimaryDoc where
  pmms30 : Option (List PmmsEntry)
deriving DecidableEq

/-- The rate dict: all five keys are always present. -/
structure RateRecord where
  rate : String
  week : String
  source : String
  link : String
  change : String
deriving DecidableEq

/-- Tier 1 of `fetch_mortgage_rate` (the first `try` block).  `.error`
models an exception from `urlopen` or `json.loads`.  On a document,
`data.get("pmms30", [{}])[-1]` is `getLast?` of the list (with the
`[{}]` default when the key is missing); `[-1]` on an *empty* list raises
`IndexError`, which the `except` catches, hence `none` there.  A successful
tier returns the Freddie Mac record. -/
def primaryTier (p : Except Unit PrimaryDoc) : Option RateRecord :=
  match p with
  | Except.error _ => none
  | Except.ok data =>
    match (data.pmms30.getD [{ pmms := none, weeklyendingdate := none }]).getLast? with
    | none => none
    | some latest =>
      some { rate := (latest.pmms.getD "N/A") ++ "%"
             week := latest.weeklyendingdate.getD ""
             source := "Freddie Mac Primary Mortgage Market Survey"
             link := "https://www.freddiemac.com/pmms"
             change := "" }

/-- Greedy digit run: the longest prefix of ASCII digits (`\d+`), plus the
remainder. -/
def takeDigits : List Char → List Char × List Char
  | [] => ([], [])
  | c :: cs =>
    if c.isDigit then
      let p := takeDigits cs
      (c :: p.1, p.2)
    else ([], c :: cs)

/-- Try to match `(\d+\.\d+)%` at the head of the list, returning the
captured group.  Digits, `'.'` and `'%'` are pairwise disjoint, so the
greedy quantifiers are deterministic: each `\d+` is the maximal digit
run. -/
def matchRateAt (l : List Char) : Option (List Char) :=
  let p1 := takeDigits l
  if p1.1.isEmpty then none
  else
    match p1.2 with
    | '.' :: r2 =>
      let p2 := takeDigits r2
      if p2.1.isEmpty then none
      else
        match p2.2 with
        | '%' :: _ => some (p1.1 ++ '.' :: p2.1)
        | _ => none
    | _ => none

/-- `re.search(r"(\d+\.\d+)%", s).group(1)`: the leftmost match wins. -/
def findRateMatch : List Char → Option (List Char)
  | [] => none
  | c :: cs =>
    match matchRateAt (c :: cs) with
    | some m => some m
    | none => findRateMatch cs

def findRate (s : String) : Option String := (findRateMatch s.data).map (fun l => (⟨l⟩ : String))

/-- Tier 2 of `fetch_mortgage_rate`: fetch the Mortgage News Daily feed,
and if it yields articles, search the first article's `title + desc` for a
decimal percentage.  `now` is `datetime.now().strftime("%B %d, %Y")`.
Nothing in this block can raise once `fetch_rss` has returned, so the
surrounding `try/except: pass` adds no behaviour. -/
def secondaryTier (o : FeedOracle) (now : String) : Option RateRecord :=
  match fetch_rss (o "https://www.mortgagenewsdaily.com/rss/mortgage-rates") with
  | [] => none
  | first :: _ =>
    match findRate (first.title ++ first.desc) with
    | none => none
    | some m =>
      some { rate := m ++ "%"
             week := now
             source := "Mortgage News Daily"
             link := "https://www.mortgagenewsdaily.com/mortgage-rates/30-year-fixed"
             change := first.title }

/-- Tier 3, the unconditional final `return`. -/
def tertiaryRecord (now : String) : RateRecord :=
  { rate := "See source →"
    week := now
    source := "Bankrate"
    link := "https://www.bankrate.com/mortgages/30-year-mortgage-rate/"
    change := "Click to see today\x27s current rate" }

/-- `fetch_mortgage_rate`: first tier that produces a record wins. -/
def fetch_mortgage_rate (p : Except Unit PrimaryDoc) (o : FeedOracle) (now : String) :
    RateRecord :=
  match primaryTier p with
  | some r => r
  | none =>
    match secondaryTier o now with
    | some r => r
    | none => tertiaryRecord now

/- ────────────────────────────────────────────
   Digest Assembler (gather_news)
   ──────────────────────────────────────────── -/

/-- The assembled digest returned by `gather_news`. -/
structure Digest where
  raleigh : List Article
  construction : List Article
  materials : List Article
  mortgage_news : List Article
deriving DecidableEq

/-- One feed's contribution inside a `gather_news` loop: fetch it and tag
every article with the feed's name (`item["source"] = feed["name"]`). -/
def feedArticles (o : FeedOracle) (f : FeedSource) : List Article :=
  (fetch_rss (o f.url)).map (fun a => { a with source := f.name })

/-- `gather_news`: three sequential loops accumulating per-group article
lists (the construction loop also mines each feed's items for mortgage
news, two per feed), then the sectioned digest. -/
def gather_news (o : FeedOracle) : Digest :=
  let raleigh_articles :=
    RSS_FEEDS_raleigh_news.foldl (fun acc feed => acc ++ feedArticles o feed) []
  let cm :=
    RSS_FEEDS_construction_news.foldl
      (fun (cm : List Article × List Article) feed =>
        (cm.1 ++ feedArticles o feed,
         cm.2 ++ filter_articles (feedArticles o feed) MORTGAGE_KEYWORDS 2))
      ([], [])
  let materials_articles :=
    RSS_FEEDS_materials_news.foldl (fun acc feed => acc ++ feedArticles o feed) []
  { raleigh := filter_articles raleigh_articles RALEIGH_KEYWORDS 5
    construction :=
      filter_articles cm.1 (MATERIAL_KEYWORDS ++ ["home", "build", "permit", "housing"]) 4
    materials := filter_articles materials_articles MATERIAL_KEYWORDS 4
    mortgage_news := cm.2.take 3 }

/- ────────────────────────────────────────────
   Concrete instances used by witnesses and counterexamples
   ──────────────────────────────────────────── -/

/-- A materials article used to instantiate the relevance-filter claims. -/
def c7a : Article :=
  { title := "Lumber prices jump", link := "", desc := "", date := "", source := "" }

/-- An item whose description carries a bare `<` that no complete tag
encloses (ET delivers such text for `&lt;` in the raw XML). -/
def c4item : ItemNode :=
  { title := some "Rates roundup", link := some "https://example.com/a",
    description := some "5 < 10 but margins shrink", pubDate := none }

def c4doc : FeedDoc := { items := [c4item], entries := [] }

/-- An item with a well-formed tag and padding, for the amended C4. -/
def c4witem : ItemNode :=
  { title := some "Weekly wrap", link := none,
    description := some "  <b>Big</b> news  ", pubDate := none }

def c4wdoc : FeedDoc := { items := [c4witem], entries := [] }

/-- An Atom-only document: zero items, one entry. -/
def c5entry : EntryNode :=
  { title := some "Atom only", summary := some "entry summary", content := none,
    updated := some "2024-05-09T12:00:00Z", linkHref := some "https://example.com/e" }

def c5wdoc : FeedDoc := { items := [], entries := [c5entry] }

/-- The primary-tier document of end-to-end scenario 2. -/
def c8doc : PrimaryDoc :=
  { pmms30 := some [{ pmms := some "6.72", weeklyendingdate := some "2024-05-09" }] }

/-- A construction item matching no mortgage keyword. -/
def c6item : ItemNode :=
  { title := some "Permit volume rises", link := some "https://example.com/p",
    description := some "steady quarter", pubDate := none }

/-- An oracle where only the Construction Dive feed succeeds, with a single
article that matches no mortgage keyword. -/
def c6oracle : FeedOracle := fun u =>
  if u = "https://www.constructiondive.com/feeds/news/" then
    Except.ok { items := [c6item], entries := [] }
  else Except.error ()

/-- A document for the isolation witness. -/
def c3doc : FeedDoc :=
  { items := [{ title := some "Triangle growth", link := none,
                description := none, pubDate := none }],
    entries := [] }

/-- Two oracles that differ only at the NAHB Now URL. -/
def c3oracleA : FeedOracle := fun _ => Except.error ()

def c3oracleB : FeedOracle := fun u =>
  if u = "https://nahbnow.com/feed/" then Except.ok c3doc else Except.error ()

/- ────────────────────────────────────────────
   Relevance Filter lemmas
   ──────────────────────────────────────────── -/

theorem foldl_partition (keywords : List String) (l : List Article) (m r : List Article) :
    l.foldl
      (fun (mr : List Article × List Article) a =>
        if matchesKeywords keywords a then (mr.1 ++ [a], mr.2) else (mr.1, mr.2 ++ [a]))
      (m, r)
      = (m ++ l.filter (fun a => matchesKeywords keywords a),
         r ++ l.filter (fun a => !matchesKeywords keywords a)) := by
  induction l generalizing m r with
  | nil => simp
  | cons a t ih =>
    by_cases h : matchesKeywords keywords a = true
    · simp [h, ih, List.filter_cons]
    · simp [h, ih, List.filter_cons]

/-- `filter_articles` is the stable two-way partition followed by
truncation. -/
theorem filter_articles_eq (articles : List Article) (keywords : List String) (n : Nat) :
    filter_articles articles keywords n
      = (articles.filter (fun a => matchesKeywords keywords a)
          ++ articles.filter (fun a => !matchesKeywords keywords a)).take n := by
  simp only [filter_articles]
  rw [foldl_partition]
  simp

/-- C1: the Relevance Filter returns the keyword-matching articles in their
original relative order, followed by the non-matching articles in their
original relative order, truncated to `max_items`; consequently the output
length is at most `max_items` and every matching article in the output
precedes every non-matching one. -/
theorem C1_filter_articles_stable_partition (articles : List Article)
    (keywords : List String) (max_items : Nat) :
    filter_articles articles keywords max_items
      = (articles.filter (fun a => matchesKeywords keywords a)
          ++ articles.filter (fun a => !matchesKeywords keywords a)).take max_items
    ∧ (filter_articles articles keywords max_items).length ≤ max_items
    ∧ (filter_articles articles keywords max_items).Pairwise
        (fun a b => matchesKeywords keywords b = true → matchesKeywords keywords a = true) := by
  refine ⟨filter_articles_eq .., ?_, ?_⟩
  · rw [filter_articles_eq]
    exact List.length_take_le _ _
  · rw [filter_articles_eq]
    refine List.Pairwise.sublist (List.take_sublist _ _) ?_
    rw [List.pairwise_append]
    refine ⟨?_, ?_, ?_⟩
    · refine List.pairwise_of_forall_mem_list ?_
      intro a ha b _ _
      exact (List.mem_filter.mp ha).2
    · refine List.pairwise_of_forall_mem_list ?_
      intro a _ b hb hb2
      have h2 := (List.mem_filter.mp hb).2
      rw [hb2] at h2
      simp at h2
    · intro a ha b _ _
      exact (List.mem_filter.mp ha).2

/-- C7: when the input already fits within `max_items`, the Relevance
Filter drops nothing — the output has the same length as the input and
every input article appears in the output. -/
theorem C7_filter_articles_no_exclusion (articles : List Article)
    (keywords : List String) (max_items : Nat)
    (h : articles.length ≤ max_items) :
    (filter_articles articles keywords max_items).length = articles.length
    ∧ ∀ a ∈ articles, a ∈ filter_articles articles keywords max_items := by
  have hperm := List.filter_append_perm (fun a => matchesKeywords keywords a) articles
  have hlen := hperm.length_eq
  have htake : (articles.filter (fun a => matchesKeywords keywords a)
        ++ articles.filter (fun a => !matchesKeywords keywords a)).take max_items
      = articles.filter (fun a => matchesKeywords keywords a)
        ++ articles.filter (fun a => !matchesKeywords keywords a) :=
    List.take_of_length_le (by rw [hlen]; exact h)
  constructor
  · rw [filter_articles_eq, htake, hlen]
  · intro a ha
    rw [filter_articles_eq, htake]
    exact hperm.mem_iff.mpr ha

/-- C7 witness: the theorem instantiated on a one-article list with cap 1. -/
theorem C7_witness :
    [c7a].length ≤ 1
    ∧ ((filter_articles [c7a] MATERIAL_KEYWORDS 1).length = [c7a].length
        ∧ ∀ a ∈ [c7a], a ∈ filter_articles [c7a] MATERIAL_KEYWORDS 1) :=
  ⟨by decide, C7_filter_articles_no_exclusion [c7a] MATERIAL_KEYWORDS 1 (by decide)⟩

/- ────────────────────────────────────────────
   Tag-stripping lemmas
   ──────────────────────────────────────────── -/

theorem splitAtGt_none {l : List Char} (h : '>' ∉ l) : splitAtGt l = none := by
  induction l with
  | nil => rfl
  | cons c t ih =>
    have hc : ¬ c = '>' := fun e => h (e ▸ List.mem_cons_self c t)
    simp [splitAtGt, hc, ih (fun m => h (List.mem_cons_of_mem c m))]

theorem splitAtGt_append {cs i r : List Char} (b : List Char)
    (h : splitAtGt cs = some (i, r)) : splitAtGt (cs ++ b) = some (i, r ++ b) := by
  induction cs generalizing i with
  | nil => simp [splitAtGt] at h
  | cons c t ih =>
    by_cases hc : c = '>'
    · subst hc
      have h' : (some (([] : List Char), t) : Option (List Char × List Char))
          = some (i, r) := h
      injection h' with hp
      injection hp with h1 h2
      subst h1
      subst h2
      show splitAtGt ('>' :: (t ++ b)) = some ([], t ++ b)
      rfl
    · have e1 : splitAtGt (c :: t) = (splitAtGt t).map (fun p => (c :: p.1, p.2)) := by
        simp [splitAtGt, hc]
      have e2 : splitAtGt (c :: (t ++ b))
          = (splitAtGt (t ++ b)).map (fun p => (c :: p.1, p.2)) := by
        simp [splitAtGt, hc]
      rw [e1] at h
      rw [List.cons_append, e2]
      cases ht : splitAtGt t with
      | none =>
        rw [ht] at h
        exact absurd h (by simp)
      | some p =>
        obtain ⟨i0, r0⟩ := p
        rw [ht] at h
        have h' : (some (c :: i0, r0) : Option (List Char × List Char)) = some (i, r) := h
        injection h' with hp
        injection hp with h1 h2
        subst h1
        subst h2
        rw [ih ht]
        rfl

theorem hasTag_cons (c : Char) (cs : List Char) :
    hasTag (c :: cs) = (tagAt (c :: cs) || hasTag cs) := rfl

theorem tagAt_not_lt {c : Char} (h : ¬ c = '<') (cs : List Char) :
    tagAt (c :: cs) = false := by
  simp [tagAt, h]

theorem hasTag_of_no_gt {l : List Char} (h : '>' ∉ l) : hasTag l = false := by
  induction l with
  | nil => rfl
  | cons c t ih =>
    rw [hasTag_cons, ih (fun m => h (List.mem_cons_of_mem c m)), Bool.or_false]
    by_cases hc : c = '<'
    · subst hc
      simp [tagAt, splitAtGt_none (fun m => h (List.mem_cons_of_mem _ m))]
    · exact tagAt_not_lt hc t

theorem tagAt_append {a : List Char} (b : List Char) (h : tagAt a = true) :
    tagAt (a ++ b) = true := by
  match a with
  | [] => simp [tagAt] at h
  | c :: cs =>
    simp only [tagAt, Bool.and_eq_true, decide_eq_true_eq] at h
    obtain ⟨hc, h2⟩ := h
    subst hc
    cases hs : splitAtGt cs with
    | none =>
      rw [hs] at h2
      exact absurd h2 (by simp)
    | some p =>
      obtain ⟨i, r⟩ := p
      rw [hs] at h2
      have h2' : (!i.isEmpty) = true := h2
      rw [List.cons_append]
      show (decide ('<' = '<')
        && ((splitAtGt (cs ++ b)).map (fun p => !p.1.isEmpty)).getD false) = true
      rw [splitAtGt_append b hs]
      show (true && !i.isEmpty) = true
      rw [Bool.true_and]
      exact h2'

theorem hasTag_append_right {a : List Char} (b : List Char) (h : hasTag a = true) :
    hasTag (a ++ b) = true := by
  induction a with
  | nil => simp [hasTag] at h
  | cons c cs ih =>
    rw [hasTag_cons] at h
    rw [List.cons_append, hasTag_cons]
    rcases Bool.or_eq_true_iff.mp h with h1 | h2
    · have := tagAt_append (a := c :: cs) b h1
      rw [List.cons_append] at this
      rw [this, Bool.true_or]
    · rw [ih h2, Bool.or_true]

theorem hasTag_append_left (a : List Char) {b : List Char} (h : hasTag b = true) :
    hasTag (a ++ b) = true := by
  induction a with
  | nil => simpa using h
  | cons c cs ih => rw [List.cons_append, hasTag_cons, ih, Bool.or_true]

theorem hasTag_take {l : List Char} {n : Nat} (h : hasTag (l.take n) = true) :
    hasTag l = true := by
  have h2 := hasTag_append_right (l.drop n) h
  rwa [List.take_append_drop] at h2

/-- The tag-free invariant of the `re.sub` scanner, jointly over both
modes. -/
theorem subAux_clean (l : List Char) :
    hasTag (subAux none l) = false
    ∧ ∀ buf : List Char, '>' ∉ buf → hasTag (subAux (some buf) l) = false := by
  induction l with
  | nil =>
    refine ⟨rfl, ?_⟩
    intro buf hb
    have hrev : '>' ∉ buf.reverse := by simpa using hb
    show hasTag ('<' :: buf.reverse) = false
    rw [hasTag_cons, hasTag_of_no_gt hrev, Bool.or_false]
    simp [tagAt, splitAtGt_none hrev]
  | cons c cs ih =>
    constructor
    · show hasTag (if c = '<' then subAux (some []) cs else c :: subAux none cs) = false
      by_cases hc : c = '<'
      · rw [if_pos hc]
        exact ih.2 [] (by simp)
      · rw [if_neg hc, hasTag_cons, tagAt_not_lt hc, ih.1]
        rfl
    · intro buf hb
      show hasTag
          (if c = '>' then
            if buf.isEmpty then '<' :: '>' :: subAux none cs else subAux none cs
          else subAux (some (c :: buf)) cs) = false
      by_cases hc : c = '>'
      · rw [if_pos hc]
        by_cases hbe : buf.isEmpty
        · rw [if_pos hbe]
          rw [hasTag_cons, hasTag_cons, ih.1, Bool.or_false]
          have t1 : tagAt ('<' :: '>' :: subAux none cs) = false := by
            simp [tagAt, splitAtGt]
          have t2 : tagAt ('>' :: subAux none cs) = false :=
            tagAt_not_lt (by decide) _
          rw [t1, t2]
          rfl
        · rw [if_neg hbe]
          exact ih.1
      · rw [if_neg hc]
        refine ih.2 (c :: buf) ?_
        intro hm
        rcases List.mem_cons.mp hm with h1 | h2
        · exact hc h1.symm
        · exact hb h2

theorem stripTags_clean (l : List Char) : hasTag (stripTags l) = false :=
  (subAux_clean l).1

theorem rev_strip_decomp (p : Char → Bool) (d : List Char) :
    d = (d.reverse.dropWhile p).reverse ++ (d.reverse.takeWhile p).reverse := by
  conv_lhs =>
    rw [← List.reverse_reverse d,
      ← List.takeWhile_append_dropWhile (p := p) (l := d.reverse)]
  rw [List.reverse_append]

/-- `pyStrip l` sits inside `l` between the stripped margins. -/
theorem pyStrip_middle (l : List Char) :
    l = l.takeWhile pySpace ++ pyStrip l
        ++ ((l.dropWhile pySpace).reverse.takeWhile pySpace).reverse := by
  conv_lhs => rw [← List.takeWhile_append_dropWhile (p := pySpace) (l := l)]
  rw [List.append_assoc]
  congr 1
  exact rev_strip_decomp pySpace (l.dropWhile pySpace)

theorem pyStrip_length_le (l : List Char) : (pyStrip l).length ≤ l.length := by
  unfold pyStrip
  calc (((l.dropWhile pySpace).reverse.dropWhile pySpace).reverse).length
      = ((l.dropWhile pySpace).reverse.dropWhile pySpace).length :=
        List.length_reverse _
    _ ≤ (l.dropWhile pySpace).reverse.length := (List.dropWhile_sublist _).length_le
    _ = (l.dropWhile pySpace).length := List.length_reverse _
    _ ≤ l.length := (List.dropWhile_sublist _).length_le

theorem hasTag_pyStrip {l : List Char} (h : hasTag l = false) :
    hasTag (pyStrip l) = false := by
  cases hp : hasTag (pyStrip l) with
  | false => rfl
  | true =>
    have h2 := hasTag_append_left (l.takeWhile pySpace)
      (hasTag_append_right ((l.dropWhile pySpace).reverse.takeWhile pySpace).reverse hp)
    rw [← List.append_assoc, ← pyStrip_middle l] at h2
    rw [h] at h2
    exact absurd h2 (by simp)

/-- The full summary pipeline keeps summaries short and free of complete
tags. -/
theorem mkDesc_clean (s : String) :
    (mkDesc s).length ≤ 220 ∧ hasTag (mkDesc s).data = false := by
  constructor
  · show (pyStrip ((stripTags s.data).take 220)).length ≤ 220
    calc (pyStrip ((stripTags s.data).take 220)).length
        ≤ ((stripTags s.data).take 220).length := pyStrip_length_le _
      _ ≤ 220 := List.length_take_le _ _
  · show hasTag (pyStrip ((stripTags s.data).take 220)) = false
    apply hasTag_pyStrip
    cases hq : hasTag ((stripTags s.data).take 220) with
    | false => rfl
    | true => exact absurd (hasTag_take hq) (by rw [stripTags_clean]; simp)

/- ────────────────────────────────────────────
   Claims C4, C5, C9 (Feed Fetcher / Normalizer)
   ──────────────────────────────────────────── -/

/-- C4 counterexample: the claim "summaries contain no markup tag
delimiters" is false — a description holding a bare `<` that no complete
tag encloses survives `re.sub(r"<[^>]+>", "", ...)`, so the produced
summary still contains the delimiter. -/
theorem C4_counterexample :
    ((fetch_rss (Except.ok c4doc)).all
      (fun a => !a.desc.data.contains '<' && !a.desc.data.contains '>')) = false := by
  decide

/-- C4 amended: every summary the normalizer produces is at most 220
characters long and contains no complete markup tag (no substring matching
`<[^>]+>`); isolated tag delimiters that never form a complete tag may
survive tag-boundary removal. -/
theorem C4_summary_bounds (outcome : Except Unit FeedDoc) (a : Article)
    (h : a ∈ fetch_rss outcome) :
    a.desc.length ≤ 220 ∧ hasTag a.desc.data = false := by
  match outcome with
  | Except.error e => simp [fetch_rss] at h
  | Except.ok doc =>
    simp only [fetch_rss, parseFeed] at h
    by_cases hi : ((doc.items.take 8).map itemToArticle).isEmpty
    · rw [if_pos hi] at h
      obtain ⟨en, _, rfl⟩ := List.mem_map.mp h
      exact mkDesc_clean _
    · rw [if_neg hi] at h
      obtain ⟨it, _, rfl⟩ := List.mem_map.mp h
      exact mkDesc_clean _

/-- C4 witness: the amended bound evaluated on a concretely fetched
document whose description carried a real tag and padding. -/
theorem C4_witness :
    itemToArticle c4witem ∈ fetch_rss (Except.ok c4wdoc)
    ∧ ((itemToArticle c4witem).desc.length ≤ 220
        ∧ hasTag (itemToArticle c4witem).desc.data = false) :=
  ⟨by decide, C4_summary_bounds (Except.ok c4wdoc) (itemToArticle c4witem) (by decide)⟩

/-- The processed RSS-item list is empty exactly when the document has no
`<item>` elements (each item appends exactly one record). -/
theorem parse_items_isEmpty (doc : FeedDoc) :
    ((doc.items.take 8).map itemToArticle).isEmpty = doc.items.isEmpty := by
  cases h : doc.items with
  | nil => rfl
  | cons a t =>
    have ht : (a :: t).take 8 = a :: t.take 7 := rfl
    rw [ht]
    rfl

/-- C5: Atom-entry extraction runs exactly when RSS-item extraction yields
zero entries — the two formats are never mixed on one document — and an
Atom-only document with at least one entry yields a non-empty article
list. -/
theorem C5_atom_fallback (doc : FeedDoc) :
    (doc.items ≠ [] → fetch_rss (Except.ok doc) = (doc.items.take 8).map itemToArticle)
    ∧ (doc.items = [] → fetch_rss (Except.ok doc) = (doc.entries.take 8).map entryToArticle)
    ∧ (doc.items = [] → doc.entries ≠ [] → fetch_rss (Except.ok doc) ≠ []) := by
  refine ⟨?_, ?_, ?_⟩
  · intro hne
    simp only [fetch_rss, parseFeed]
    rw [if_neg ?_]
    rw [parse_items_isEmpty]
    simp [List.isEmpty_iff, hne]
  · intro he
    simp only [fetch_rss, parseFeed]
    rw [if_pos ?_]
    rw [parse_items_isEmpty, he]
    rfl
  · intro he hne
    simp only [fetch_rss, parseFeed]
    rw [if_pos (by rw [parse_items_isEmpty, he]; rfl)]
    obtain ⟨e, t, het⟩ := List.exists_cons_of_ne_nil hne
    rw [het]
    have ht : (e :: t).take 8 = e :: t.take 7 := rfl
    rw [ht]
    simp

/-- C5 witness: the fallback evaluated on a concrete Atom-only document. -/
theorem C5_witness :
    c5wdoc.items = [] ∧ c5wdoc.entries ≠ [] ∧ fetch_rss (Except.ok c5wdoc) ≠ [] :=
  ⟨rfl, by decide, (C5_atom_fallback c5wdoc).2.2 rfl (by decide)⟩

/-- C9: a feed request yields at most 8 articles; the cap of 8 is applied
to the raw parsed item (or, on fallback, entry) list before field
normalization, so the output length is exactly `min 8` of the raw count. -/
theorem C9_entry_cap (outcome : Except Unit FeedDoc) :
    (fetch_rss outcome).length ≤ 8
    ∧ ∀ doc : FeedDoc,
        (fetch_rss (Except.ok doc) = (doc.items.take 8).map itemToArticle
          ∨ fetch_rss (Except.ok doc) = (doc.entries.take 8).map entryToArticle)
        ∧ (fetch_rss (Except.ok doc)).length
            = min 8 (if doc.items.isEmpty then doc.entries.length else doc.items.length) := by
  have hdoc : ∀ doc : FeedDoc,
      (fetch_rss (Except.ok doc) = (doc.items.take 8).map itemToArticle
        ∨ fetch_rss (Except.ok doc) = (doc.entries.take 8).map entryToArticle)
      ∧ (fetch_rss (Except.ok doc)).length
          = min 8 (if doc.items.isEmpty then doc.entries.length else doc.items.length) := by
    intro doc
    by_cases hi : ((doc.items.take 8).map itemToArticle).isEmpty
    · have hfe : fetch_rss (Except.ok doc) = (doc.entries.take 8).map entryToArticle := by
        simp only [fetch_rss, parseFeed]
        rw [if_pos hi]
      have hie : doc.items.isEmpty = true := by rw [← parse_items_isEmpty doc]; exact hi
      refine ⟨Or.inr hfe, ?_⟩
      rw [hfe, hie, if_pos rfl, List.length_map, List.length_take]
    · have hfi : fetch_rss (Except.ok doc) = (doc.items.take 8).map itemToArticle := by
        simp only [fetch_rss, parseFeed]
        rw [if_neg hi]
      have hie : doc.items.isEmpty = false := by
        rw [← parse_items_isEmpty doc]
        exact Bool.eq_false_iff.mpr hi
      refine ⟨Or.inl hfi, ?_⟩
      rw [hfi, hie, if_neg (by simp), List.length_map, List.length_take]
  refine ⟨?_, hdoc⟩
  match outcome with
  | Except.error e => simp [fetch_rss]
  | Except.ok doc =>
    rcases (hdoc doc).1 with hx | hx
    · rw [hx, List.length_map, List.length_take]
      exact Nat.min_le_left _ _
    · rw [hx, List.length_map, List.length_take]
      exact Nat.min_le_left _ _

/- ────────────────────────────────────────────
   Rate Resolver lemmas and claims C2, C8, C10
   ──────────────────────────────────────────── -/

theorem append_percent_ne_empty (s : String) : s ++ "%" ≠ "" := by
  intro h
  have h2 : (s ++ "%").data = "".data := by rw [h]
  rw [String.data_append] at h2
  have h3 : s.data ++ ['%'] = [] := h2
  exact absurd h3 (by simp)

/-- Any record the primary tier produces carries a percent-suffixed rate
and the Freddie Mac source fields. -/
theorem primaryTier_shape (p : Except Unit PrimaryDoc) (r : RateRecord)
    (h : primaryTier p = some r) :
    (∃ s, r.rate = s ++ "%")
    ∧ r.source = "Freddie Mac Primary Mortgage Market Survey"
    ∧ r.link = "https://www.freddiemac.com/pmms" := by
  match p with
  | Except.error e => simp [primaryTier] at h
  | Except.ok data =>
    simp only [primaryTier] at h
    cases hl : (data.pmms30.getD [{ pmms := none, weeklyendingdate := none }]).getLast? with
    | none =>
      rw [hl] at h
      simp at h
    | some latest =>
      rw [hl] at h
      simp only [Option.some.injEq] at h
      subst h
      exact ⟨⟨_, rfl⟩, rfl, rfl⟩

/-- Any record the secondary tier produces carries a percent-suffixed rate
and the Mortgage News Daily source fields. -/
theorem secondaryTier_shape (o : FeedOracle) (now : String) (r : RateRecord)
    (h : secondaryTier o now = some r) :
    (∃ s, r.rate = s ++ "%")
    ∧ r.source = "Mortgage News Daily"
    ∧ r.link = "https://www.mortgagenewsdaily.com/mortgage-rates/30-year-fixed" := by
  unfold secondaryTier at h
  cases hf : fetch_rss (o "https://www.mortgagenewsdaily.com/rss/mortgage-rates") with
  | nil =>
    rw [hf] at h
    simp at h
  | cons first rest =>
    rw [hf] at h
    cases hm : findRate (first.title ++ first.desc) with
    | none =>
      simp [hm] at h
    | some m =>
      simp only [hm, Option.some.injEq] at h
      subst h
      exact ⟨⟨m, rfl⟩, rfl, rfl⟩

/-- C2: the Rate Resolver always returns exactly one record — the embedded
function is total and every one of the five fields is present by
construction — with a non-missing, non-empty rate and named source and
link, whichever tier succeeds; and when the primary and secondary tiers
both fail, it unconditionally returns the tertiary placeholder record,
whose period label is the current date. -/
theorem C2_rate_resolver_total (p : Except Unit PrimaryDoc) (o : FeedOracle) (now : String) :
    (fetch_mortgage_rate p o now).rate ≠ ""
    ∧ (fetch_mortgage_rate p o now).source ≠ ""
    ∧ (fetch_mortgage_rate p o now).link ≠ ""
    ∧ (primaryTier p = none → secondaryTier o now = none →
        fetch_mortgage_rate p o now = tertiaryRecord now)
    ∧ (tertiaryRecord now).week = now := by
  unfold fetch_mortgage_rate
  cases hp : primaryTier p with
  | some r =>
    obtain ⟨⟨s, hs⟩, hsrc, hlink⟩ := primaryTier_shape p r hp
    refine ⟨?_, ?_, ?_, ?_, rfl⟩
    · show r.rate ≠ ""
      rw [hs]
      exact append_percent_ne_empty s
    · show r.source ≠ ""
      rw [hsrc]
      decide
    · show r.link ≠ ""
      rw [hlink]
      decide
    · intro h1 _
      exact absurd h1 (by simp)
  | none =>
    cases hq : secondaryTier o now with
    | some r =>
      obtain ⟨⟨s, hs⟩, hsrc, hlink⟩ := secondaryTier_shape o now r hq
      refine ⟨?_, ?_, ?_, ?_, rfl⟩
      · show r.rate ≠ ""
        rw [hs]
        exact append_percent_ne_empty s
      · show r.source ≠ ""
        rw [hsrc]
        decide
      · show r.link ≠ ""
        rw [hlink]
        decide
      · intro _ h2
        exact absurd h2 (by simp)
    | none =>
      refine ⟨?_, ?_, ?_, fun _ _ => rfl, rfl⟩
      · show (tertiaryRecord now).rate ≠ ""
        rw [show (tertiaryRecord now).rate = "See source →" from rfl]
        decide
      · show (tertiaryRecord now).source ≠ ""
        rw [show (tertiaryRecord now).source = "Bankrate" from rfl]
        decide
      · show (tertiaryRecord now).link ≠ ""
        rw [show (tertiaryRecord now).link
          = "https://www.bankrate.com/mortgages/30-year-mortgage-rate/" from rfl]
        decide

/-- C2 witness: with a failing primary endpoint and a failing secondary
feed, the resolver returns the tertiary placeholder and its rate is
non-empty. -/
theorem C2_witness :
    fetch_mortgage_rate (Except.error ()) (fun _ => Except.error ()) "July 04, 2025"
      = tertiaryRecord "July 04, 2025"
    ∧ (fetch_mortgage_rate (Except.error ()) (fun _ => Except.error ())
        "July 04, 2025").rate ≠ "" := by
  have h := C2_rate_resolver_total (Except.error ()) (fun _ => Except.error ()) "July 04, 2025"
  exact ⟨h.2.2.2.1 rfl rfl, h.1⟩

/-- C8: on the scenario document `{"pmms30":[{"pmms":"6.72",
"weeklyendingdate":"2024-05-09"}]}` the resolver returns rate `"6.72%"`
and period label `"2024-05-09"`; in general the primary tier reads the
last entry of the `pmms30` list. -/
theorem C8_primary_scenario_two (o : FeedOracle) (now : String) :
    (fetch_mortgage_rate (Except.ok c8doc) o now).rate = "6.72%"
    ∧ (fetch_mortgage_rate (Except.ok c8doc) o now).week = "2024-05-09"
    ∧ ∀ (pre : List PmmsEntry) (e : PmmsEntry),
        primaryTier (Except.ok { pmms30 := some (pre ++ [e]) })
          = some { rate := (e.pmms.getD "N/A") ++ "%"
                   week := e.weeklyendingdate.getD ""
                   source := "Freddie Mac Primary Mortgage Market Survey"
                   link := "https://www.freddiemac.com/pmms"
                   change := "" } := by
  refine ⟨rfl, rfl, ?_⟩
  intro pre e
  simp only [primaryTier, Option.getD_some]
  rw [List.getLast?_concat]

/-- C10: a parseable primary document that merely lacks the `"pmms30"` key
does not advance the resolver to tier 2 — it yields the primary-tier
record with rate `"N/A%"` and an empty period label; only an exception
(modelled here by an empty `pmms30` list, whose `[-1]` raises, or a failed
request or parse) sends the resolver to the next tier. -/
theorem C10_missing_key_stays_primary (o : FeedOracle) (now : String) :
    fetch_mortgage_rate (Except.ok { pmms30 := none }) o now
      = { rate := "N/A%", week := "",
          source := "Freddie Mac Primary Mortgage Market Survey",
          link := "https://www.freddiemac.com/pmms", change := "" }
    ∧ primaryTier (Except.ok { pmms30 := some [] }) = none
    ∧ primaryTier (Except.error ()) = none :=
  ⟨rfl, rfl, rfl⟩

/- ────────────────────────────────────────────
   Digest Assembler lemmas and claims C3, C6
   ──────────────────────────────────────────── -/

theorem foldl_append_flatten (g : FeedSource → List Article) (l : List FeedSource)
    (acc : List Article) :
    l.foldl (fun acc f => acc ++ g f) acc = acc ++ (l.map g).flatten := by
  induction l generalizing acc with
  | nil => simp
  | cons f t ih => simp [ih, List.append_assoc]

theorem foldl_pair_flatten (o : FeedOracle) (l : List FeedSource)
    (acc1 acc2 : List Article) :
    l.foldl
      (fun (cm : List Article × List Article) feed =>
        (cm.1 ++ feedArticles o feed,
         cm.2 ++ filter_articles (feedArticles o feed) MORTGAGE_KEYWORDS 2))
      (acc1, acc2)
      = (acc1 ++ (l.map (feedArticles o)).flatten,
         acc2 ++ (l.map
            (fun f => filter_articles (feedArticles o f) MORTGAGE_KEYWORDS 2)).flatten) := by
  induction l generalizing acc1 acc2 with
  | nil => simp
  | cons f t ih => simp [ih, List.append_assoc]

/-- `gather_news` always iterates the full static feed tables: every
section is the per-feed contributions of every configured feed of its
group, concatenated in configuration order and passed to the section
filter. -/
theorem gather_news_eq (o : FeedOracle) :
    gather_news o =
      { raleigh := filter_articles
          ((RSS_FEEDS_raleigh_news.map (feedArticles o)).flatten) RALEIGH_KEYWORDS 5
        construction := filter_articles
          ((RSS_FEEDS_construction_news.map (feedArticles o)).flatten)
          (MATERIAL_KEYWORDS ++ ["home", "build", "permit", "housing"]) 4
        materials := filter_articles
          ((RSS_FEEDS_materials_news.map (feedArticles o)).flatten) MATERIAL_KEYWORDS 4
        mortgage_news :=
          ((RSS_FEEDS_construction_news.map
            (fun f => filter_articles (feedArticles o f) MORTGAGE_KEYWORDS 2)).flatten).take 3 } := by
  simp only [gather_news]
  rw [foldl_append_flatten, foldl_append_flatten, foldl_pair_flatten]
  simp

/-- C3: a failed fetch yields the empty article list — in this embedding
`fetch_rss` is a total function of the request outcome, so no error
escapes to the caller; each feed's contribution to the digest depends only
on that feed's own outcome, so a failure at one URL cannot change any
other source's fetch; and the assembler's sections always range over the
full static feed lists, whatever the outcomes were. -/
theorem C3_failure_isolation :
    (∀ e : Unit, fetch_rss (Except.error e) = [])
    ∧ (∀ (o o' : FeedOracle) (u : String), (∀ v, v ≠ u → o v = o' v) →
        ∀ f : FeedSource, f.url ≠ u → feedArticles o f = feedArticles o' f)
    ∧ ∀ o : FeedOracle, gather_news o =
        { raleigh := filter_articles
            ((RSS_FEEDS_raleigh_news.map (feedArticles o)).flatten) RALEIGH_KEYWORDS 5
          construction := filter_articles
            ((RSS_FEEDS_construction_news.map (feedArticles o)).flatten)
            (MATERIAL_KEYWORDS ++ ["home", "build", "permit", "housing"]) 4
          materials := filter_articles
            ((RSS_FEEDS_materials_news.map (feedArticles o)).flatten) MATERIAL_KEYWORDS 4
          mortgage_news :=
            ((RSS_FEEDS_construction_news.map
              (fun f => filter_articles (feedArticles o f) MORTGAGE_KEYWORDS 2)).flatten).take 3 } := by
  refine ⟨fun e => rfl, ?_, gather_news_eq⟩
  intro o o' u hagree f hf
  unfold feedArticles
  rw [hagree f.url hf]

/-- C3 witness: the isolation facts applied to two concrete oracles that
differ only at the NAHB Now URL, compared on the WRAL feed. -/
theorem C3_witness :
    fetch_rss (Except.error ()) = []
    ∧ feedArticles c3oracleA
        { name := "WRAL – Local News", url := "https://www.wral.com/rss/1148/" }
      = feedArticles c3oracleB
        { name := "WRAL – Local News", url := "https://www.wral.com/rss/1148/" } := by
  refine ⟨C3_failure_isolation.1 (), ?_⟩
  refine C3_failure_isolation.2.1 c3oracleA c3oracleB "https://nahbnow.com/feed/" ?_ _ ?_
  · intro v hv
    show Except.error () = c3oracleB v
    simp only [c3oracleB]
    rw [if_neg hv]
  · decide

/-- C6 counterexample: the claim that every article in the mortgage bucket
matches a mortgage keyword is false — the per-feed mining uses
`filter_articles`, which never excludes, so a construction feed whose
items match no mortgage keyword still contributes them to the bucket. -/
theorem C6_counterexample :
    ((gather_news c6oracle).mortgage_news.all (matchesKeywords MORTGAGE_KEYWORDS)) = false := by
  decide

/-- C6 amended: the mortgage bucket is the concatenation, over the
construction feeds in order, of each feed's articles passed through the
Relevance Filter with the mortgage keyword set and cap 2 — matching
articles first, with non-matching articles filling any remainder — then
truncated to 3 with no further filtering; hence at most 2 per construction
source and at most 3 in the bucket, but membership does not imply a
mortgage-keyword match. -/
theorem C6_mortgage_bucket (o : FeedOracle) :
    (gather_news o).mortgage_news
      = ((RSS_FEEDS_construction_news.map
          (fun f => filter_articles (feedArticles o f) MORTGAGE_KEYWORDS 2)).flatten).take 3
    ∧ (gather_news o).mortgage_news.length ≤ 3
    ∧ ∀ f : FeedSource, (filter_articles (feedArticles o f) MORTGAGE_KEYWORDS 2).length ≤ 2 := by
  have hg := gather_news_eq o
  refine ⟨?_, ?_, ?_⟩
  · rw [hg]
  · rw [hg]
    exact List.length_take_le _ _
  · intro f
    rw [filter_articles_eq]
    exact List.length_take_le _ _

end HHoldings
